import Mathlib

/-!
Verification development for the AdaptCalc versioned self-replacement
subsystem (`src/adaptcalc.py`, `src/revert_tool.py`).

The embedding models file names and file contents as `List Char` (Python
strings), the working directory as a list of directory entries carrying a
name, a content and a modification time, in the order `os.listdir('.')`
enumerates them, and the I/O environment (which paths can be opened for
writing, whether `os.execv` succeeds) as an explicit record.  Python's
`datetime.now().strftime("%Y%m%d_%H%M%S")` is an external input and enters
as an explicit timestamp parameter.

The regular expression `^{script_base}_\d{8}_\d{6}_v\d+\.bak$` built by
`list_backup_files` is modelled with Python `re` semantics: `\d` matches
any Unicode decimal digit (category Nd; the decade table below comes from
CPython 3.11 / Unicode 14.0), and the non-MULTILINE `$` under `re.match` /
`re.search` also matches just before a single newline that ends the
string, so the canonical name followed by exactly one trailing `'\n'` is
accepted.  The regex interpolates the base name unescaped; the embedding
`matchesPattern` treats the base name as literal text, which coincides
with the Python semantics whenever the base name contains no regex
metacharacters (the repository's actual base name is `adaptcalc`; theorems
quantifying over base names carry this literal-character hypothesis where
it matters).
-/

/-- File names and file contents, as Python strings. -/
abbrev Str := List Char

/-- A directory entry: name, content and modification time. A directory is a
`List FileEntry` in `os.listdir` enumeration order. -/
structure FileEntry where
  name : Str
  content : Str
  mtime : Nat
deriving DecidableEq

/-- The I/O environment: which paths can be opened for writing, and whether
`os.execv` succeeds. Reads fail exactly on absent files. -/
structure Env where
  writable : Str → Bool
  execOk : Bool

/-- The mutable system state: the working directory and a clock supplying
modification times for writes. -/
structure Sys where
  fs : List FileEntry
  clock : Nat
deriving DecidableEq

/-- Reading a file: content of the first entry with the given name
(`open(name, 'r').read()`), `none` when the file is absent. -/
def readFile : List FileEntry → Str → Option Str
  | [], _ => none
  | e :: rest, n => if e.name = n then some e.content else readFile rest n

/-- Writing a file (`open(name, 'w').write(c)`): truncate the existing entry
in place or create a fresh entry at the end of the directory. -/
def writeFile : List FileEntry → Str → Str → Nat → List FileEntry
  | [], n, c, t => [⟨n, c, t⟩]
  | e :: rest, n, c, t =>
      if e.name = n then ⟨n, c, t⟩ :: rest else e :: writeFile rest n c t

/-- `l` consists of ASCII decimal digits. This is the digit notion of the
spec's naming grammar and of `strftime`/`str(n)` output. -/
def isDigits (l : Str) : Bool := l.all Char.isDigit

/-- First code point (the decimal-value-0 digit) of every non-ASCII decade
of Unicode general category Nd, Unicode 14.0 (CPython 3.11's
`unicodedata`).  Each decade is ten consecutive code points with decimal
values 0..9; together with ASCII `0`..`9` these are exactly the characters
matched by `\d` in a Python `str` regex. -/
def ndExtraStarts : List Nat :=
  [1632, 1776, 1984, 2406, 2534, 2662, 2790, 2918, 3046, 3174, 3302, 3430,
   3558, 3664, 3792, 3872, 4160, 4240, 6112, 6160, 6470, 6608, 6784, 6800,
   6992, 7088, 7232, 7248, 42528, 43216, 43264, 43472, 43504, 43600, 44016,
   65296, 66720, 68912, 69734, 69872, 69942, 70096, 70384, 70736, 70864,
   71248, 71360, 71472, 71904, 72016, 72784, 73040, 73120, 92768, 92864,
   93008, 120782, 120792, 120802, 120812, 120822, 123200, 123632, 125264,
   130032]

/-- The character class `\d` of a Python `str` regex: ASCII digits plus
every other Unicode decimal digit (category Nd). -/
def isPyDigit (c : Char) : Bool :=
  c.isDigit
    || ndExtraStarts.any (fun s => decide (s ≤ c.toNat) && decide (c.toNat < s + 10))

/-- `l` consists of `\d`-digits. -/
def isPyDigits (l : Str) : Bool := l.all isPyDigit

/-- The decimal value of one `\d`-digit, as Python's `int()` assigns it
(offset inside its Nd decade). -/
def pyDigitVal (c : Char) : Nat :=
  if c.isDigit then c.toNat - 48
  else
    match ndExtraStarts.find?
        (fun s => decide (s ≤ c.toNat) && decide (c.toNat < s + 10)) with
    | some s => c.toNat - s
    | none => 0

/-- Decimal digit character of `d % 10`-style values: rendering helper for
Python's decimal formatting of nonnegative integers. -/
def digitChar : Nat → Char
  | 0 => '0' | 1 => '1' | 2 => '2' | 3 => '3' | 4 => '4'
  | 5 => '5' | 6 => '6' | 7 => '7' | 8 => '8' | _ => '9'

/-- Fuelled decimal rendering; the fuel only drives structural recursion
and any fuel above the rendered number gives the same digits. -/
def natDigitsF : Nat → Nat → Str
  | 0, _ => []
  | fuel + 1, n =>
      if n < 10 then [digitChar n]
      else natDigitsF fuel (n / 10) ++ [digitChar (n % 10)]

/-- Decimal rendering of a natural number, as Python's `str(n)` /
`f"{n}"` for nonnegative `n`. -/
def natDigits (n : Nat) : Str := natDigitsF (n + 1) n

/-- Decimal parsing of a digit string, as Python's `int(s)` on a string of
`\d`-digits (Unicode decimal digits included). -/
def digitsToNat (l : Str) : Nat :=
  l.foldl (fun a c => 10 * a + pyDigitVal c) 0

/-- Drop the literal pattern `p` from the front of `n`
(the `^{script_base}` part of the regex, base name taken literally). -/
def dropStart : Str → Str → Option Str
  | [], n => some n
  | _ :: _, [] => none
  | p :: ps, c :: cs => if p = c then dropStart ps cs else none

/-- The suffix `.bak` as a character list. -/
def bakSuffix : Str := ['.', 'b', 'a', 'k']

/-- The regex `^{base}_\d{8}_\d{6}_v\d+\.bak$` of `list_backup_files` under
`re.match`, with the interpolated base name taken as literal text.  Per
Python semantics, `\d` is any Unicode decimal digit and the non-MULTILINE
`$` also matches just before one newline that ends the string, so the
canonical shape followed by exactly one trailing `'\n'` is accepted too. -/
def matchesPattern (base n : Str) : Bool :=
  match dropStart base n with
  | none => false
  | some r =>
    match r with
    | '_' :: rest =>
      let date := rest.take 8
      let r2 := rest.drop 8
      if (date.length == 8 && isPyDigits date) then
        match r2 with
        | '_' :: rest2 =>
          let time := rest2.take 6
          let r3 := rest2.drop 6
          if (time.length == 6 && isPyDigits time) then
            match r3 with
            | '_' :: 'v' :: rest3 =>
              let ds := rest3.takeWhile isPyDigit
              let r4 := rest3.dropWhile isPyDigit
              (!ds.isEmpty) && ((r4 == bakSuffix) || (r4 == bakSuffix ++ ['\n']))
            | _ => false
          else false
        | _ => false
      else false
    | _ => false

/-- Modelled from the spec: the exact naming grammar of section 4.1 —
`{baseName}_{8-digit date}_{6-digit time}_v{digits}.bak` with ASCII
decimal digits and nothing after the `.bak` suffix.  This is the shape the
spec's `matches` claims to test ("an exact-match filter, not a fuzzy
one"); it is compared against the code's `matchesPattern` above. -/
def conformsExactly (base n : Str) : Bool :=
  match dropStart base n with
  | none => false
  | some r =>
    match r with
    | '_' :: rest =>
      let date := rest.take 8
      let r2 := rest.drop 8
      if (date.length == 8 && isDigits date) then
        match r2 with
        | '_' :: rest2 =>
          let time := rest2.take 6
          let r3 := rest2.drop 6
          if (time.length == 6 && isDigits time) then
            match r3 with
            | '_' :: 'v' :: rest3 =>
              let ds := rest3.takeWhile Char.isDigit
              let r4 := rest3.dropWhile Char.isDigit
              (!ds.isEmpty) && (r4 == bakSuffix)
            | _ => false
          else false
        | _ => false
      else false
    | _ => false

/-- Drop one leading newline if present. Applied to the reversed name, this
is the one-trailing-newline tolerance of the non-MULTILINE `$`. -/
def stripOneNl : Str → Str
  | '\n' :: rest => rest
  | r => r

/-- The version extraction `re.search(r"_v(\d+)\.bak$", b)` of
`get_next_backup_filename`: the maximal `\d`-digit run just before `.bak`
at the end of the name (the `$` also matching before one final newline),
preceded by `_v`; the group is parsed by `int()`. -/
def extractVersion (n : Str) : Option Nat :=
  match stripOneNl n.reverse with
  | 'k' :: 'a' :: 'b' :: '.' :: rest =>
    let ds := rest.takeWhile isPyDigit
    match rest.dropWhile isPyDigit with
    | 'v' :: '_' :: _ => if ds.isEmpty then none else some (digitsToNat ds.reverse)
    | _ => none
  | _ => none

/-- Does the name end in `.bak`? Used to separate the tracked `.py` file
from backup names. -/
def endsBak (n : Str) : Bool :=
  match n.reverse with
  | 'k' :: 'a' :: 'b' :: '.' :: _ => true
  | _ => false

/-- Stable insertion of a directory entry into a list sorted by
modification time: the entry goes after every earlier-enumerated entry with
modification time `le` its own, mirroring the stability of Python's
`list.sort(key=os.path.getmtime)`. -/
def insertByMtime (x : FileEntry) : List FileEntry → List FileEntry
  | [] => [x]
  | y :: ys => if y.mtime < x.mtime then y :: insertByMtime x ys else x :: y :: ys

/-- Stable sort by modification time ascending
(`files.sort(key=lambda x: os.path.getmtime(x))`). -/
def sortByMtime (l : List FileEntry) : List FileEntry :=
  l.foldr insertByMtime []

/-- `list_backup_files` (`src/adaptcalc.py` lines 97-110 and
`src/revert_tool.py` lines 20-33): keep the directory entries matching the
backup-name regex, sorted by modification time ascending with Python's
stable sort. -/
def list_backup_files (base : Str) (fs : List FileEntry) : List FileEntry :=
  sortByMtime (fs.filter (fun f => matchesPattern base f.name))

/-- The `iteration` loop of `get_next_backup_filename` (lines 122-129):
highest version among existing backups, plus one. -/
def next_iteration (base : Str) (fs : List FileEntry) : Nat :=
  ((list_backup_files base fs).foldl
    (fun it b =>
      match extractVersion b.name with
      | some v => if it < v then v else it
      | none => it) 0) + 1

/-- `get_next_backup_filename` (`src/adaptcalc.py` lines 112-130):
`f"{script_base}_{now_str}_v{iteration}.bak"`, where `nowStr` stands for
`datetime.datetime.now().strftime("%Y%m%d_%H%M%S")`. -/
def get_next_backup_filename (base nowStr : Str) (fs : List FileEntry) : Str :=
  base ++ '_' :: (nowStr ++ '_' :: 'v' :: (natDigits (next_iteration base fs) ++ bakSuffix))

/-- `backup_script_custom` (`src/adaptcalc.py` lines 132-144): copy the
tracked file to the freshly generated backup name; any exception is caught,
a warning is printed, and the backup name is returned regardless. The third
component records which branch of the `try` ran (`true` = copy succeeded). -/
def backup_script_custom (env : Env) (base nowStr filePath : Str) (s : Sys) :
    Sys × Str × Bool :=
  let backupPath := get_next_backup_filename base nowStr s.fs
  match readFile s.fs filePath with
  | none => (s, backupPath, false)
  | some c =>
    if env.writable backupPath then
      (⟨writeFile s.fs backupPath c s.clock, s.clock + 1⟩, backupPath, true)
    else (s, backupPath, false)

/-- Outcome of a controller invocation. `restarted` models the successful
`os.execv`; `ioError` models the `except` branch showing a critical message
box; `emptyContent` models the "Received empty or invalid script from
model." rejection. -/
inductive Outcome
  | restarted
  | reverted
  | ioError
  | emptyContent
deriving DecidableEq

/-- `overwrite_self` (`src/adaptcalc.py` lines 146-163): back up the current
script (result unchecked), then truncate-write the new code and re-exec;
exceptions in the second step surface as a critical error. -/
def overwrite_self (env : Env) (base nowStr scriptPath : Str) (newCode : Str)
    (s : Sys) : Sys × Outcome :=
  let r := backup_script_custom env base nowStr scriptPath s
  let s1 := r.1
  if env.writable scriptPath then
    let s2 : Sys := ⟨writeFile s1.fs scriptPath newCode s1.clock, s1.clock + 1⟩
    if env.execOk then (s2, .restarted) else (s2, .ioError)
  else (s1, .ioError)

/-- `revert_to_backup` (`src/adaptcalc.py` lines 165-182): back up the
current script (result unchecked), then open the chosen backup for reading
and the script for writing — the backup is opened first, so an absent
backup raises before the script is touched — copy, and re-exec. -/
def revert_to_backup (env : Env) (base nowStr scriptPath backupFilename : Str)
    (s : Sys) : Sys × Outcome :=
  let r := backup_script_custom env base nowStr scriptPath s
  let s1 := r.1
  match readFile s1.fs backupFilename with
  | none => (s1, .ioError)
  | some content =>
    if env.writable scriptPath then
      let s2 : Sys := ⟨writeFile s1.fs scriptPath content s1.clock, s1.clock + 1⟩
      if env.execOk then (s2, .restarted) else (s2, .ioError)
    else (s1, .ioError)

/-- Remove every occurrence of three consecutive backticks, left to right
(`script_code.replace("\x60\x60\x60", "")` in `sanitize_script_response`). -/
def removeTicks : Str → Str
  | [] => []
  | [c] => [c]
  | [c₁, c₂] => [c₁, c₂]
  | c₁ :: c₂ :: c₃ :: rest =>
      if c₁ = Char.ofNat 96 ∧ c₂ = Char.ofNat 96 ∧ c₃ = Char.ofNat 96 then
        removeTicks rest
      else c₁ :: removeTicks (c₂ :: c₃ :: rest)

/-- Python's `str.strip()`: drop whitespace from both ends. -/
def stripWS (l : Str) : Str :=
  ((l.dropWhile Char.isWhitespace).reverse.dropWhile Char.isWhitespace).reverse

/-- `sanitize_script_response` (`src/adaptcalc.py` lines 75-80). -/
def sanitize_script_response (s : Str) : Str := stripWS (removeTicks s)

/-- The tail of `CalculatorWindow.customize_entire_script`
(`src/adaptcalc.py` lines 490-499) from the model response onward: sanitize
the raw response, reject it when its stripped form is empty, otherwise hand
it to `overwrite_self`. -/
def customize_apply (env : Env) (base nowStr scriptPath : Str)
    (rawResponse : Str) (s : Sys) : Sys × Outcome :=
  let newCode := sanitize_script_response rawResponse
  if stripWS newCode = [] then (s, .emptyContent)
  else overwrite_self env base nowStr scriptPath newCode s

/-- `revert_backup` (`src/revert_tool.py` lines 35-45): copy the chosen
backup over `adaptcalc.py` with no preliminary backup of the current
content; exceptions surface as a critical error. -/
def revert_backup (env : Env) (scriptFile backupFilename : Str) (s : Sys) :
    Sys × Outcome :=
  match readFile s.fs backupFilename with
  | none => (s, .ioError)
  | some content =>
    if env.writable scriptFile then
      (⟨writeFile s.fs scriptFile content s.clock, s.clock + 1⟩, .reverted)
    else (s, .ioError)

/-! ## Decimal rendering and parsing lemmas -/

theorem digitChar_isDigit (d : Nat) : (digitChar d).isDigit = true := by
  match d with
  | 0 | 1 | 2 | 3 | 4 | 5 | 6 | 7 | 8 => decide
  | n + 9 => rfl

theorem pyDigitVal_digitChar (d : Nat) (h : d < 10) : pyDigitVal (digitChar d) = d := by
  match d, h with
  | 0, _ | 1, _ | 2, _ | 3, _ | 4, _ | 5, _ | 6, _ | 7, _ | 8, _ | 9, _ => decide

theorem natDigitsF_all_digits (fuel n : Nat) (h : n < fuel) :
    isDigits (natDigitsF fuel n) = true := by
  induction fuel generalizing n with
  | zero => omega
  | succ fuel ih =>
    unfold natDigitsF
    by_cases h10 : n < 10
    · simp [h10, isDigits, digitChar_isDigit]
    · have hdiv : n / 10 < fuel := by
        have := Nat.div_lt_self (by omega : 0 < n) (by omega : 1 < 10)
        omega
      simp only [h10, if_false, isDigits, List.all_append, Bool.and_eq_true]
      refine ⟨ih _ hdiv, ?_⟩
      simp [digitChar_isDigit]

theorem natDigits_all_digits (n : Nat) : isDigits (natDigits n) = true :=
  natDigitsF_all_digits (n + 1) n (by omega)

theorem isPyDigit_of_isDigit (c : Char) (h : c.isDigit = true) :
    isPyDigit c = true := by
  simp [isPyDigit, h]

theorem isPyDigits_of_isDigits (l : Str) (h : isDigits l = true) :
    isPyDigits l = true := by
  simp only [isDigits, List.all_eq_true] at h
  simp only [isPyDigits, List.all_eq_true]
  exact fun c hc => isPyDigit_of_isDigit c (h c hc)

theorem natDigits_all_pyDigits (n : Nat) : isPyDigits (natDigits n) = true :=
  isPyDigits_of_isDigits _ (natDigits_all_digits n)

theorem natDigitsF_ne_nil (fuel n : Nat) (h : n < fuel) : natDigitsF fuel n ≠ [] := by
  match fuel with
  | 0 => omega
  | fuel + 1 =>
    unfold natDigitsF
    by_cases h10 : n < 10 <;> simp [h10]

theorem natDigits_ne_nil (n : Nat) : natDigits n ≠ [] :=
  natDigitsF_ne_nil (n + 1) n (by omega)

theorem digitsToNat_append_one (l : Str) (c : Char) :
    digitsToNat (l ++ [c]) = 10 * digitsToNat l + pyDigitVal c := by
  simp [digitsToNat, List.foldl_append]

theorem digitsToNat_natDigitsF (fuel n : Nat) (h : n < fuel) :
    digitsToNat (natDigitsF fuel n) = n := by
  induction fuel generalizing n with
  | zero => omega
  | succ fuel ih =>
    unfold natDigitsF
    by_cases h10 : n < 10
    · simp only [h10, if_true]
      show digitsToNat ([] ++ [digitChar n]) = n
      rw [digitsToNat_append_one]
      simp [digitsToNat, pyDigitVal_digitChar n h10]
    · have hdiv : n / 10 < fuel := by
        have := Nat.div_lt_self (by omega : 0 < n) (by omega : 1 < 10)
        omega
      simp only [h10, if_false]
      rw [digitsToNat_append_one, ih _ hdiv,
        pyDigitVal_digitChar _ (Nat.mod_lt _ (by omega))]
      omega

theorem digitsToNat_natDigits (n : Nat) : digitsToNat (natDigits n) = n :=
  digitsToNat_natDigitsF (n + 1) n (by omega)

/-! ## Prefix and naming-grammar lemmas -/

theorem dropStart_append (p r : Str) : dropStart p (p ++ r) = some r := by
  induction p with
  | nil => rfl
  | cons c cs ih => simp [dropStart, ih]

theorem dropStart_eq_some {p n r : Str} (h : dropStart p n = some r) : n = p ++ r := by
  induction p generalizing n with
  | nil =>
    simp only [dropStart, Option.some.injEq] at h
    simpa using h
  | cons c cs ih =>
    match n with
    | [] => simp [dropStart] at h
    | d :: ds =>
      simp only [dropStart] at h
      split at h
      · next heq => simpa [heq] using ih h
      · exact absurd h (by simp)

/-- The spec's naming grammar of section 4.1, as a proposition:
`{baseName}_{8-digit date}_{6-digit time}_v{digits}.bak`, ASCII digits,
nothing after the suffix. -/
def conformsToShape (base n : Str) : Prop :=
  ∃ d t v, d.length = 8 ∧ isDigits d = true ∧ t.length = 6 ∧ isDigits t = true ∧
    v ≠ [] ∧ isDigits v = true ∧
    n = base ++ '_' :: (d ++ '_' :: (t ++ '_' :: 'v' :: (v ++ bakSuffix)))

/-- The language the code's regex accepts for a literal base name: the
grammar shape with `\d` standing for any Unicode decimal digit, optionally
followed by exactly one trailing newline (`$` under `re.match`). -/
def acceptedShape (base n : Str) : Prop :=
  ∃ d t v nl, d.length = 8 ∧ isPyDigits d = true
    ∧ t.length = 6 ∧ isPyDigits t = true
    ∧ v ≠ [] ∧ isPyDigits v = true
    ∧ (nl = [] ∨ nl = ['\n'])
    ∧ n = base ++ '_' :: (d ++ '_' :: (t ++ '_' :: 'v' :: (v ++ (bakSuffix ++ nl))))

theorem matchesPattern_iff (base n : Str) :
    matchesPattern base n = true ↔ acceptedShape base n := by
  constructor
  · intro h
    unfold matchesPattern at h
    split at h
    · exact absurd h (by simp)
    · next r hdrop =>
      have hn : n = base ++ r := dropStart_eq_some hdrop
      split at h
      · next rest =>
        simp only at h
        split at h
        · next hcond =>
          split at h
          · next rest2 hr2 =>
            split at h
            · next hcond2 =>
              split at h
              · next rest3 hr3 =>
                simp only [Bool.and_eq_true, Bool.or_eq_true,
                  Bool.not_eq_eq_eq_not, Bool.not_true, List.isEmpty_eq_false,
                  beq_iff_eq] at h hcond hcond2
                obtain ⟨nl, hnl, hr4⟩ : ∃ nl, (nl = [] ∨ nl = ['\n'])
                    ∧ rest3.dropWhile isPyDigit = bakSuffix ++ nl := by
                  rcases h.2 with h4 | h4
                  · exact ⟨[], Or.inl rfl, by rw [h4, List.append_nil]⟩
                  · exact ⟨['\n'], Or.inr rfl, h4⟩
                refine ⟨rest.take 8, rest2.take 6, rest3.takeWhile isPyDigit, nl,
                  by simpa using hcond.1, hcond.2, by simpa using hcond2.1,
                  hcond2.2, h.1, List.all_takeWhile, hnl, ?_⟩
                rw [hn]
                have e1 : rest = rest.take 8 ++ ('_' :: rest2) := by
                  conv_lhs => rw [← List.take_append_drop 8 rest]
                  rw [hr2]
                have e2 : rest2 = rest2.take 6 ++ ('_' :: 'v' :: rest3) := by
                  conv_lhs => rw [← List.take_append_drop 6 rest2]
                  rw [hr3]
                have e3 : rest3 = rest3.takeWhile isPyDigit ++ (bakSuffix ++ nl) := by
                  have e := List.takeWhile_append_dropWhile (p := isPyDigit) (l := rest3)
                  rw [hr4] at e
                  exact e.symm
                have erest : rest = rest.take 8 ++ '_' ::
                    (rest2.take 6 ++ '_' :: 'v' ::
                      (rest3.takeWhile isPyDigit ++ (bakSuffix ++ nl))) := by
                  rw [← e3, ← e2, ← e1]
                rw [← erest]
              · exact absurd h (by simp)
            · exact absurd h (by simp)
          · exact absurd h (by simp)
        · exact absurd h (by simp)
      · exact absurd h (by simp)
  · rintro ⟨d, t, v, nl, hd8, hdd, ht6, htd, hvne, hvd, hnl, rfl⟩
    have hvall : ∀ a ∈ v, isPyDigit a := by
      intro a ha
      exact List.all_eq_true.mp hvd a ha
    have hdot : ¬ isPyDigit '.' = true := by decide
    unfold matchesPattern
    rw [dropStart_append]
    simp only
    rw [List.take_left' hd8, List.drop_left' hd8]
    simp only [hd8, hdd, isPyDigits] at *
    simp only [List.take_left' ht6, List.drop_left' ht6]
    simp only [ht6, htd]
    rw [List.takeWhile_append_of_pos hvall, List.dropWhile_append_of_pos hvall]
    rcases hnl with rfl | rfl <;>
      simp [List.isEmpty_iff, hvne, hd8, hdd, ht6, htd, isPyDigits, bakSuffix,
        List.takeWhile_cons_of_neg hdot, List.dropWhile_cons_of_neg hdot]

theorem conformsExactly_iff (base n : Str) :
    conformsExactly base n = true ↔ conformsToShape base n := by
  constructor
  · intro h
    unfold conformsExactly at h
    split at h
    · exact absurd h (by simp)
    · next r hdrop =>
      have hn : n = base ++ r := dropStart_eq_some hdrop
      split at h
      · next rest =>
        simp only at h
        split at h
        · next hcond =>
          split at h
          · next rest2 hr2 =>
            split at h
            · next hcond2 =>
              split at h
              · next rest3 hr3 =>
                simp only [Bool.and_eq_true, Bool.not_eq_eq_eq_not, Bool.not_true,
                  List.isEmpty_eq_false, beq_iff_eq] at h hcond hcond2
                refine ⟨rest.take 8, rest2.take 6, rest3.takeWhile Char.isDigit,
                  by simpa using hcond.1, hcond.2, by simpa using hcond2.1, hcond2.2,
                  h.1, List.all_takeWhile, ?_⟩
                rw [hn]
                have e1 : rest = rest.take 8 ++ ('_' :: rest2) := by
                  conv_lhs => rw [← List.take_append_drop 8 rest]
                  rw [hr2]
                have e2 : rest2 = rest2.take 6 ++ ('_' :: 'v' :: rest3) := by
                  conv_lhs => rw [← List.take_append_drop 6 rest2]
                  rw [hr3]
                have e3 : rest3 = rest3.takeWhile Char.isDigit ++ bakSuffix := by
                  have e := List.takeWhile_append_dropWhile (p := Char.isDigit) (l := rest3)
                  rw [h.2] at e
                  exact e.symm
                have erest : rest = rest.take 8 ++ '_' ::
                    (rest2.take 6 ++ '_' :: 'v' :: (rest3.takeWhile Char.isDigit ++ bakSuffix)) := by
                  rw [← e3, ← e2, ← e1]
                rw [← erest]
              · exact absurd h (by simp)
            · exact absurd h (by simp)
          · exact absurd h (by simp)
        · exact absurd h (by simp)
      · exact absurd h (by simp)
  · rintro ⟨d, t, v, hd8, hdd, ht6, htd, hvne, hvd, rfl⟩
    have hvall : ∀ a ∈ v, Char.isDigit a := by
      intro a ha
      exact List.all_eq_true.mp hvd a ha
    unfold conformsExactly
    rw [dropStart_append]
    simp only
    rw [List.take_left' hd8, List.drop_left' hd8]
    simp only [hd8, hdd, isDigits] at *
    simp only [List.take_left' ht6, List.drop_left' ht6]
    simp only [ht6, htd]
    rw [List.takeWhile_append_of_pos hvall, List.dropWhile_append_of_pos hvall]
    simp [List.isEmpty_iff, hvne, hd8, hdd, ht6, htd, isDigits, bakSuffix,
      List.takeWhile_cons_of_neg, List.dropWhile_cons_of_neg]

theorem acceptedShape_of_conformsToShape (base n : Str)
    (h : conformsToShape base n) : acceptedShape base n := by
  obtain ⟨d, t, v, hd8, hdd, ht6, htd, hvne, hvd, heq⟩ := h
  refine ⟨d, t, v, [], hd8, isPyDigits_of_isDigits d hdd, ht6,
    isPyDigits_of_isDigits t htd, hvne, isPyDigits_of_isDigits v hvd,
    Or.inl rfl, ?_⟩
  rw [heq, List.append_nil]

theorem matchesPattern_of_conformsExactly (base n : Str)
    (h : conformsExactly base n = true) : matchesPattern base n = true :=
  (matchesPattern_iff base n).mpr
    (acceptedShape_of_conformsToShape base n ((conformsExactly_iff base n).mp h))

theorem extractVersion_of_suffix (p v : Str) (hne : v ≠ [])
    (hd : isPyDigits v = true) :
    extractVersion (p ++ '_' :: 'v' :: (v ++ bakSuffix)) = some (digitsToNat v) := by
  have hvall : ∀ a ∈ v.reverse, isPyDigit a := by
    intro a ha
    exact List.all_eq_true.mp hd a (List.mem_reverse.mp ha)
  have hv : ¬ isPyDigit 'v' = true := by decide
  have hrev : (p ++ '_' :: 'v' :: (v ++ bakSuffix)).reverse
      = 'k' :: 'a' :: 'b' :: '.' :: (v.reverse ++ 'v' :: '_' :: p.reverse) := by
    simp [bakSuffix, List.reverse_append]
  unfold extractVersion
  rw [hrev]
  rw [show stripOneNl ('k' :: 'a' :: 'b' :: '.' ::
      (v.reverse ++ 'v' :: '_' :: p.reverse))
      = 'k' :: 'a' :: 'b' :: '.' :: (v.reverse ++ 'v' :: '_' :: p.reverse) from rfl]
  simp only
  rw [List.takeWhile_append_of_pos hvall, List.dropWhile_append_of_pos hvall,
    List.takeWhile_cons_of_neg hv, List.dropWhile_cons_of_neg hv]
  simp [List.isEmpty_eq_false, hne]

theorem gen_shape (base nowStr : Str) (fs : List FileEntry) :
    get_next_backup_filename base nowStr fs
      = (base ++ '_' :: nowStr) ++ '_' :: 'v' ::
          (natDigits (next_iteration base fs) ++ bakSuffix) := by
  simp [get_next_backup_filename]

theorem extractVersion_gen (base nowStr : Str) (fs : List FileEntry) :
    extractVersion (get_next_backup_filename base nowStr fs)
      = some (next_iteration base fs) := by
  rw [gen_shape,
    extractVersion_of_suffix _ _ (natDigits_ne_nil _) (natDigits_all_pyDigits _),
    digitsToNat_natDigits]

theorem gen_conforms (base d t : Str) (fs : List FileEntry)
    (hd8 : d.length = 8) (hdd : isDigits d = true)
    (ht6 : t.length = 6) (htd : isDigits t = true) :
    conformsToShape base (get_next_backup_filename base (d ++ '_' :: t) fs) := by
  refine ⟨d, t, natDigits (next_iteration base fs), hd8, hdd, ht6, htd,
    natDigits_ne_nil _, natDigits_all_digits _, ?_⟩
  simp [get_next_backup_filename]

theorem matchesPattern_gen (base d t : Str) (fs : List FileEntry)
    (hd8 : d.length = 8) (hdd : isDigits d = true)
    (ht6 : t.length = 6) (htd : isDigits t = true) :
    matchesPattern base (get_next_backup_filename base (d ++ '_' :: t) fs) = true :=
  (matchesPattern_iff _ _).mpr
    (acceptedShape_of_conformsToShape _ _ (gen_conforms base d t fs hd8 hdd ht6 htd))

theorem endsBak_append (x : Str) : endsBak (x ++ bakSuffix) = true := by
  unfold endsBak
  simp [bakSuffix, List.reverse_append]

theorem endsBak_gen (base nowStr : Str) (fs : List FileEntry) :
    endsBak (get_next_backup_filename base nowStr fs) = true := by
  rw [gen_shape]
  have : (base ++ '_' :: nowStr) ++ '_' :: 'v' ::
      (natDigits (next_iteration base fs) ++ bakSuffix)
      = ((base ++ '_' :: nowStr) ++ '_' :: 'v' ::
          natDigits (next_iteration base fs)) ++ bakSuffix := by
    simp
  rw [this, endsBak_append]

theorem ne_gen_of_not_endsBak (base nowStr m : Str) (fs : List FileEntry)
    (h : endsBak m = false) : m ≠ get_next_backup_filename base nowStr fs := by
  intro he
  rw [he, endsBak_gen] at h
  exact absurd h (by simp)

/-! ## File-operation lemmas -/

theorem readFile_writeFile_same (fs : List FileEntry) (n c : Str) (t : Nat) :
    readFile (writeFile fs n c t) n = some c := by
  induction fs with
  | nil => simp [writeFile, readFile]
  | cons e rest ih =>
    unfold writeFile
    by_cases he : e.name = n
    · simp [he, readFile]
    · simp [he, readFile, ih]

theorem readFile_writeFile_other (fs : List FileEntry) (n m c : Str) (t : Nat)
    (h : m ≠ n) : readFile (writeFile fs n c t) m = readFile fs m := by
  have hnm : ¬ (n = m) := fun hh => h hh.symm
  induction fs with
  | nil => simp [writeFile, readFile, hnm]
  | cons e rest ih =>
    unfold writeFile
    by_cases he : e.name = n
    · have hem : ¬ (e.name = m) := by rw [he]; exact hnm
      simp [he, readFile, hnm, hem]
    · simp only [he, if_false, readFile]
      by_cases hm : e.name = m <;> simp [hm, ih]

theorem writeFile_of_absent (fs : List FileEntry) (n c : Str) (t : Nat)
    (h : readFile fs n = none) : writeFile fs n c t = fs ++ [⟨n, c, t⟩] := by
  induction fs with
  | nil => simp [writeFile]
  | cons e rest ih =>
    unfold readFile at h
    by_cases he : e.name = n
    · simp [he] at h
    · simp only [he, if_false] at h
      simp [writeFile, he, ih h]

theorem readFile_append_of_found (fs l : List FileEntry) (n c : Str)
    (h : readFile fs n = some c) : readFile (fs ++ l) n = some c := by
  induction fs with
  | nil => simp [readFile] at h
  | cons e rest ih =>
    rw [List.cons_append]
    unfold readFile at h ⊢
    by_cases he : e.name = n
    · simpa [he] using h
    · simp only [he, if_false] at h ⊢
      exact ih h

open scoped List

/-! ## Sorting lemmas: permutation, sortedness, stability -/

theorem insertByMtime_perm (x : FileEntry) (l : List FileEntry) :
    insertByMtime x l ~ x :: l := by
  induction l with
  | nil => rfl
  | cons y ys ih =>
    unfold insertByMtime
    by_cases hy : y.mtime < x.mtime
    · rw [if_pos hy]
      calc y :: insertByMtime x ys ~ y :: x :: ys := List.Perm.cons y ih
        _ ~ x :: y :: ys := List.Perm.swap x y ys
    · rw [if_neg hy]

theorem sortByMtime_perm (l : List FileEntry) : sortByMtime l ~ l := by
  induction l with
  | nil => rfl
  | cons x xs ih =>
    show insertByMtime x (sortByMtime xs) ~ x :: xs
    calc insertByMtime x (sortByMtime xs) ~ x :: sortByMtime xs :=
          insertByMtime_perm x (sortByMtime xs)
      _ ~ x :: xs := List.Perm.cons x ih

theorem insertByMtime_sorted (x : FileEntry) (l : List FileEntry)
    (h : List.Pairwise (fun a b => a.mtime ≤ b.mtime) l) :
    List.Pairwise (fun a b => a.mtime ≤ b.mtime) (insertByMtime x l) := by
  induction l with
  | nil => simp [insertByMtime]
  | cons y ys ih =>
    unfold insertByMtime
    rcases h with - | ⟨hy, hys⟩
    by_cases hxy : y.mtime < x.mtime
    · rw [if_pos hxy]
      refine List.Pairwise.cons ?_ (ih hys)
      intro z hz
      have hz' : z ∈ x :: ys := (insertByMtime_perm x ys).mem_iff.mp hz
      rcases List.mem_cons.mp hz' with rfl | hz'
      · omega
      · exact hy z hz'
    · rw [if_neg hxy]
      refine List.Pairwise.cons ?_ (List.Pairwise.cons hy hys)
      intro z hz
      rcases List.mem_cons.mp hz with rfl | hz
      · omega
      · have := hy z hz
        omega

theorem sortByMtime_sorted (l : List FileEntry) :
    List.Pairwise (fun a b => a.mtime ≤ b.mtime) (sortByMtime l) := by
  induction l with
  | nil => simp [sortByMtime]
  | cons x xs ih => exact insertByMtime_sorted x (sortByMtime xs) ih

theorem filter_insertByMtime_of_eq (x : FileEntry) (l : List FileEntry) (t : Nat)
    (hx : x.mtime = t) :
    (insertByMtime x l).filter (fun e => e.mtime == t)
      = x :: l.filter (fun e => e.mtime == t) := by
  induction l with
  | nil => simp [insertByMtime, hx]
  | cons y ys ih =>
    unfold insertByMtime
    by_cases hxy : y.mtime < x.mtime
    · have hy : ¬ ((y.mtime == t) = true) := by
        simp only [beq_iff_eq]
        omega
      rw [if_pos hxy, List.filter_cons, if_neg hy, ih, List.filter_cons, if_neg hy]
    · rw [if_neg hxy, List.filter_cons, if_pos (by simp [hx])]

theorem filter_insertByMtime_of_ne (x : FileEntry) (l : List FileEntry) (t : Nat)
    (hx : x.mtime ≠ t) :
    (insertByMtime x l).filter (fun e => e.mtime == t)
      = l.filter (fun e => e.mtime == t) := by
  induction l with
  | nil => simp [insertByMtime, hx]
  | cons y ys ih =>
    unfold insertByMtime
    by_cases hxy : y.mtime < x.mtime
    · rw [if_pos hxy, List.filter_cons]
      by_cases hy : ((y.mtime == t) = true)
      · rw [if_pos hy, ih, List.filter_cons, if_pos hy]
      · rw [if_neg hy, ih, List.filter_cons, if_neg hy]
    · rw [if_neg hxy, List.filter_cons, if_neg (by simp [hx])]

theorem sortByMtime_stable (l : List FileEntry) (t : Nat) :
    (sortByMtime l).filter (fun e => e.mtime == t)
      = l.filter (fun e => e.mtime == t) := by
  induction l with
  | nil => rfl
  | cons x xs ih =>
    show (insertByMtime x (sortByMtime xs)).filter (fun e => e.mtime == t)
        = (x :: xs).filter (fun e => e.mtime == t)
    by_cases hx : x.mtime = t
    · rw [filter_insertByMtime_of_eq x _ t hx, ih, List.filter_cons, if_pos (by simp [hx])]
    · rw [filter_insertByMtime_of_ne x _ t hx, ih, List.filter_cons, if_neg (by simp [hx])]

/-! ## Maximum-fold lemmas -/

/-- The loop body of `get_next_backup_filename`'s maximum scan
(`if val > iteration: iteration = val`). -/
def maxStep (it : Nat) (b : FileEntry) : Nat :=
  match extractVersion b.name with
  | some v => if it < v then v else it
  | none => it

theorem maxStep_eq_max (a : Nat) (b : FileEntry) (v : Nat)
    (hb : extractVersion b.name = some v) : maxStep a b = Nat.max a v := by
  simp only [maxStep, hb, Nat.max_def]
  by_cases h1 : a < v
  · rw [if_pos h1, if_pos (Nat.le_of_lt h1)]
  · rw [if_neg h1]
    by_cases h2 : a ≤ v
    · have hav : a = v := by omega
      rw [if_pos h2, hav]
    · rw [if_neg h2]

theorem foldl_maxStep_eq (l : List FileEntry) :
    ∀ a, l.foldl maxStep a
      = (l.filterMap (fun b => extractVersion b.name)).foldl Nat.max a := by
  induction l with
  | nil => intro a; rfl
  | cons b bs ih =>
    intro a
    simp only [List.foldl_cons, List.filterMap_cons]
    cases hb : extractVersion b.name with
    | none => simp [maxStep, hb, ih]
    | some v =>
      simp only [List.foldl_cons]
      rw [maxStep_eq_max a b v hb, ih]

theorem nat_max_eq_add (p q : Nat) : Nat.max p q = p + (q - p) := by
  show max p q = p + (q - p)
  omega

theorem foldl_max_perm {l l' : List Nat} (p : l ~ l') :
    ∀ a, l.foldl Nat.max a = l'.foldl Nat.max a := by
  induction p with
  | nil => intro a; rfl
  | cons x _ ih => intro a; simp only [List.foldl_cons, ih]
  | swap x y l =>
    intro a
    simp only [List.foldl_cons]
    have hc : Nat.max (Nat.max a y) x = Nat.max (Nat.max a x) y := by
      simp only [nat_max_eq_add]
      omega
    rw [hc]
  | trans _ _ ih1 ih2 => intro a; rw [ih1, ih2]

theorem le_foldl_max (l : List Nat) : ∀ a, a ≤ l.foldl Nat.max a ∧
    ∀ v ∈ l, v ≤ l.foldl Nat.max a := by
  induction l with
  | nil => intro a; exact ⟨Nat.le_refl a, by simp⟩
  | cons x xs ih =>
    intro a
    simp only [List.foldl_cons]
    obtain ⟨h1, h2⟩ := ih (Nat.max a x)
    refine ⟨Nat.le_trans (Nat.le_max_left a x) h1, ?_⟩
    intro v hv
    rcases List.mem_cons.mp hv with rfl | hv
    · exact Nat.le_trans (Nat.le_max_right a v) h1
    · exact h2 v hv

theorem foldl_max_mem (l : List Nat) :
    ∀ a, l.foldl Nat.max a = a ∨ l.foldl Nat.max a ∈ l := by
  induction l with
  | nil => intro a; exact Or.inl rfl
  | cons x xs ih =>
    intro a
    simp only [List.foldl_cons]
    rcases ih (Nat.max a x) with h | h
    · rw [h]
      by_cases hax : x ≤ a
      · have ha : Nat.max a x = a := by rw [nat_max_eq_add]; omega
        exact Or.inl ha
      · have ha : Nat.max a x = x := by rw [nat_max_eq_add]; omega
        rw [ha]
        exact Or.inr (List.mem_cons_self x xs)
    · exact Or.inr (List.mem_cons_of_mem x h)

theorem foldl_max_range' (k : Nat) : (List.range' 1 k).foldl Nat.max 0 = k := by
  induction k with
  | zero => rfl
  | succ k ih =>
    rw [List.range'_concat, List.foldl_append, ih]
    simp only [List.foldl_cons, List.foldl_nil]
    rw [nat_max_eq_add]
    omega

/-! ## Characterizing the version scan -/

/-- Versions of the backups returned by `list_backup_files`, in listed order
(each listed backup matches the full pattern, so each contributes). -/
def listedVersions (base : Str) (fs : List FileEntry) : List Nat :=
  (list_backup_files base fs).filterMap (fun b => extractVersion b.name)

/-- Versions of the matching directory entries in enumeration order
(unsorted). -/
def matchingVersions (base : Str) (fs : List FileEntry) : List Nat :=
  (fs.filter (fun f => matchesPattern base f.name)).filterMap
    (fun f => extractVersion f.name)

theorem next_iteration_eq_listed (base : Str) (fs : List FileEntry) :
    next_iteration base fs = (listedVersions base fs).foldl Nat.max 0 + 1 := by
  show ((list_backup_files base fs).foldl maxStep 0) + 1 = _
  rw [foldl_maxStep_eq]
  rfl

theorem listedVersions_perm (base : Str) (fs : List FileEntry) :
    listedVersions base fs ~ matchingVersions base fs :=
  (sortByMtime_perm _).filterMap _

theorem next_iteration_eq_matching (base : Str) (fs : List FileEntry) :
    next_iteration base fs = (matchingVersions base fs).foldl Nat.max 0 + 1 := by
  rw [next_iteration_eq_listed, foldl_max_perm (listedVersions_perm base fs)]

theorem readFile_eq_none_iff (fs : List FileEntry) (n : Str) :
    readFile fs n = none ↔ ∀ e ∈ fs, e.name ≠ n := by
  induction fs with
  | nil => simp [readFile]
  | cons e rest ih =>
    unfold readFile
    by_cases he : e.name = n
    · simp [he]
    · simp only [he, if_false, ih]
      constructor
      · intro h x hx
        rcases List.mem_cons.mp hx with rfl | hx
        · exact he
        · exact h x hx
      · intro h x hx
        exact h x (List.mem_cons_of_mem e hx)

/-! ## Claim theorems -/

/-- C5: for every directory state, `get_next_backup_filename`'s version
(`next_iteration`) equals 1 + the maximum version among the backups that
`list_backup_files` returns (`(listedVersions ...).foldl Nat.max 0` is that
maximum: it bounds every listed version and is attained whenever any backup
is listed), equals 1 when no backup is listed, and strictly exceeds every
remaining version — so after arbitrary manual deletions it is
1 + max(remaining versions) and never reuses a number at or below the
maximum. -/
theorem nextVersionIsMaxPlusOne (base : Str) (fs : List FileEntry) :
    next_iteration base fs = (listedVersions base fs).foldl Nat.max 0 + 1
    ∧ (listedVersions base fs = [] → next_iteration base fs = 1)
    ∧ (∀ v ∈ listedVersions base fs, v < next_iteration base fs)
    ∧ (listedVersions base fs ≠ [] →
        (listedVersions base fs).foldl Nat.max 0 ∈ listedVersions base fs) := by
  refine ⟨next_iteration_eq_listed base fs, ?_, ?_, ?_⟩
  · intro h
    rw [next_iteration_eq_listed, h]
    rfl
  · intro v hv
    rw [next_iteration_eq_listed]
    have := (le_foldl_max (listedVersions base fs) 0).2 v hv
    omega
  · intro hne
    rcases foldl_max_mem (listedVersions base fs) 0 with h | h
    · match hvs : listedVersions base fs, hne with
      | v :: rest, _ =>
        rw [hvs] at h
        have hv := (le_foldl_max (v :: rest) 0).2 v (List.mem_cons_self v rest)
        rw [h] at hv
        have hv0 : v = 0 := by omega
        rw [h, ← hv0]
        exact List.mem_cons_self v rest
    · exact h

/-- C5 witness: a concrete directory holding backups v1 and v7 (plus the
tracked file): the next version is 8 = max + 1, exceeding both listed
versions, and the maximum 7 is attained. -/
theorem nextVersionIsMaxPlusOne_witness :
    next_iteration "adaptcalc".data
        [⟨"adaptcalc.py".data, "old".data, 0⟩,
         ⟨"adaptcalc_20250101_100000_v1.bak".data, "a".data, 1⟩,
         ⟨"adaptcalc_20250101_110000_v7.bak".data, "b".data, 2⟩]
      = (listedVersions "adaptcalc".data
        [⟨"adaptcalc.py".data, "old".data, 0⟩,
         ⟨"adaptcalc_20250101_100000_v1.bak".data, "a".data, 1⟩,
         ⟨"adaptcalc_20250101_110000_v7.bak".data, "b".data, 2⟩]).foldl Nat.max 0 + 1
    ∧ listedVersions "adaptcalc".data
        [⟨"adaptcalc.py".data, "old".data, 0⟩,
         ⟨"adaptcalc_20250101_100000_v1.bak".data, "a".data, 1⟩,
         ⟨"adaptcalc_20250101_110000_v7.bak".data, "b".data, 2⟩] ≠ []
    ∧ (listedVersions "adaptcalc".data
        [⟨"adaptcalc.py".data, "old".data, 0⟩,
         ⟨"adaptcalc_20250101_100000_v1.bak".data, "a".data, 1⟩,
         ⟨"adaptcalc_20250101_110000_v7.bak".data, "b".data, 2⟩]).foldl Nat.max 0
      ∈ listedVersions "adaptcalc".data
        [⟨"adaptcalc.py".data, "old".data, 0⟩,
         ⟨"adaptcalc_20250101_100000_v1.bak".data, "a".data, 1⟩,
         ⟨"adaptcalc_20250101_110000_v7.bak".data, "b".data, 2⟩]
    ∧ ∀ v ∈ listedVersions "adaptcalc".data
        [⟨"adaptcalc.py".data, "old".data, 0⟩,
         ⟨"adaptcalc_20250101_100000_v1.bak".data, "a".data, 1⟩,
         ⟨"adaptcalc_20250101_110000_v7.bak".data, "b".data, 2⟩],
        v < next_iteration "adaptcalc".data
        [⟨"adaptcalc.py".data, "old".data, 0⟩,
         ⟨"adaptcalc_20250101_100000_v1.bak".data, "a".data, 1⟩,
         ⟨"adaptcalc_20250101_110000_v7.bak".data, "b".data, 2⟩] := by
  have h := nextVersionIsMaxPlusOne "adaptcalc".data
        [⟨"adaptcalc.py".data, "old".data, 0⟩,
         ⟨"adaptcalc_20250101_100000_v1.bak".data, "a".data, 1⟩,
         ⟨"adaptcalc_20250101_110000_v7.bak".data, "b".data, 2⟩]
  exact ⟨h.1, by decide, h.2.2.2 (by decide), h.2.2.1⟩

/-- C7 counterexample: two backups with equal modification time, enumerated
by the directory as v2 before v1, are returned by `list_backup_files` as
v2 before v1 — not in ascending order of embedded version number.  Python's
`list.sort` is stable and breaks mtime ties by enumeration order, so the
claimed version-number tie-break does not hold. -/
theorem listBackupsTieOrder_cex :
    (list_backup_files "adaptcalc".data
      [⟨"adaptcalc_20250101_110000_v2.bak".data, "b".data, 5⟩,
       ⟨"adaptcalc_20250101_100000_v1.bak".data, "a".data, 5⟩]).map
        (fun e => extractVersion e.name) = [some 2, some 1]
    ∧ (⟨"adaptcalc_20250101_110000_v2.bak".data, "b".data, 5⟩ : FileEntry).mtime
      = (⟨"adaptcalc_20250101_100000_v1.bak".data, "a".data, 5⟩ : FileEntry).mtime := by
  decide

/-- C7 amended: `list_backup_files` returns exactly the directory entries
the code's regex accepts (the naming grammar with `\d` meaning any Unicode
decimal digit, optionally followed by one trailing newline), ordered by
modification time ascending; entries with equal modification time appear
in the order the directory enumeration returned them (stable sort), not in
ascending version order. -/
theorem listBackupsSortedStable (base : Str) (fs : List FileEntry) :
    list_backup_files base fs ~ fs.filter (fun f => matchesPattern base f.name)
    ∧ List.Pairwise (fun a b => a.mtime ≤ b.mtime) (list_backup_files base fs)
    ∧ ∀ t, (list_backup_files base fs).filter (fun e => e.mtime == t)
        = (fs.filter (fun f => matchesPattern base f.name)).filter
            (fun e => e.mtime == t) :=
  ⟨sortByMtime_perm _, sortByMtime_sorted _, fun t => sortByMtime_stable _ t⟩

/-- C8 counterexample: the code's matcher is not the spec's exact grammar
even at the repository's base `adaptcalc`: via `re.match`'s `$` it accepts
the canonical name followed by one trailing newline, and via `\d` it
accepts Unicode decimal digits such as the fullwidth `５` (U+FF15,
category Nd) in the date or version fields — names the exact grammar
(`conformsExactly`) rejects; `extractVersion` likewise counts the
trailing-newline name and `int()`-parses the fullwidth version field. -/
theorem matchesNotExact_cex :
    matchesPattern "adaptcalc".data
        "adaptcalc_20250101_100000_v1.bak\n".data = true
    ∧ conformsExactly "adaptcalc".data
        "adaptcalc_20250101_100000_v1.bak\n".data = false
    ∧ matchesPattern "adaptcalc".data
        ("adaptcalc_2025010".data ++ '５' :: "_100000_v1.bak".data) = true
    ∧ conformsExactly "adaptcalc".data
        ("adaptcalc_2025010".data ++ '５' :: "_100000_v1.bak".data) = false
    ∧ extractVersion "adaptcalc_20250101_100000_v1.bak\n".data = some 1
    ∧ extractVersion ("adaptcalc_20250101_100000_v".data ++ '５' :: ".bak".data)
      = some 5 := by
  decide

/-- C8 (amended): for base names made of regex-literal (alphanumeric)
characters — the program's actual base `adaptcalc`; for other bases the
unescaped interpolation of the base into the regex changes the accepted
language further — `matchesPattern` accepts a candidate iff it has the
shape `{base}_{8 digits}_{6 digits}_v{one-or-more digits}.bak` where each
digit may be any Unicode decimal digit and the suffix may be followed by
exactly one trailing newline.  It is therefore not an exact-match filter,
but within that language it rejects wrong date digit counts, a missing
`v`, other non-`.bak` suffixes and extra characters, and it accepts every
exactly-conforming name, including every name `get_next_backup_filename`
produces from a well-formed timestamp. -/
theorem matchesRegexLanguage (base : Str)
    (hbase : base.all Char.isAlphanum = true) :
    (∀ n, matchesPattern base n = true ↔ acceptedShape base n)
    ∧ (∀ n, conformsExactly base n = true → matchesPattern base n = true)
    ∧ ∀ d t fs, d.length = 8 → isDigits d = true →
        t.length = 6 → isDigits t = true →
        matchesPattern base (get_next_backup_filename base (d ++ '_' :: t) fs)
          = true :=
  ⟨fun n => matchesPattern_iff base n,
   fun n => matchesPattern_of_conformsExactly base n,
   fun d t fs hd8 hdd ht6 htd => matchesPattern_gen base d t fs hd8 hdd ht6 htd⟩

/-- C8 witness: instantiated at the repository's base name `adaptcalc`, a
canonical candidate name, and a generated name over the empty directory. -/
theorem matchesRegexLanguage_witness :
    ("adaptcalc".data.all Char.isAlphanum = true)
    ∧ (matchesPattern "adaptcalc".data
        "adaptcalc_20250306_153012_v1.bak".data = true
      ↔ acceptedShape "adaptcalc".data "adaptcalc_20250306_153012_v1.bak".data)
    ∧ (conformsExactly "adaptcalc".data
        "adaptcalc_20250306_153012_v1.bak".data = true →
      matchesPattern "adaptcalc".data
        "adaptcalc_20250306_153012_v1.bak".data = true)
    ∧ matchesPattern "adaptcalc".data
        (get_next_backup_filename "adaptcalc".data
          ("20250306".data ++ '_' :: "153012".data) []) = true :=
  ⟨by decide,
   (matchesRegexLanguage "adaptcalc".data (by decide)).1 _,
   (matchesRegexLanguage "adaptcalc".data (by decide)).2.1 _,
   (matchesRegexLanguage "adaptcalc".data (by decide)).2.2 "20250306".data
     "153012".data [] (by decide) (by decide) (by decide) (by decide)⟩

/-- C9: when the sanitized model response strips to nothing (Python's
`if not new_code.strip()`), `customize_entire_script` reports the
empty-content error and returns with the state untouched: no backup has
been attempted and the tracked file is unchanged, since `overwrite_self`
is never invoked. -/
theorem emptyContentRejectedBeforeBackup (env : Env)
    (base nowStr scriptPath raw : Str) (s : Sys)
    (h : stripWS (sanitize_script_response raw) = []) :
    customize_apply env base nowStr scriptPath raw s = (s, Outcome.emptyContent) := by
  simp [customize_apply, h]

/-- C9 witness: a response consisting of code fences and whitespace only. -/
theorem emptyContentRejectedBeforeBackup_witness :
    stripWS (sanitize_script_response "   \n ".data) = []
    ∧ customize_apply ⟨fun _ => true, true⟩ "adaptcalc".data
        "20250306_153012".data "adaptcalc.py".data "   \n ".data
        ⟨[⟨"adaptcalc.py".data, "old".data, 0⟩], 1⟩
      = (⟨[⟨"adaptcalc.py".data, "old".data, 0⟩], 1⟩, Outcome.emptyContent) :=
  ⟨by decide,
   emptyContentRejectedBeforeBackup ⟨fun _ => true, true⟩ "adaptcalc".data
     "20250306_153012".data "adaptcalc.py".data "   \n ".data
     ⟨[⟨"adaptcalc.py".data, "old".data, 0⟩], 1⟩ (by decide)⟩

/-- C10: the version number chosen by `get_next_backup_filename` depends
only on the set of file names the code's regex accepts: any two directory
states whose regex-accepted names coincide up to enumeration order —
modification times and contents free — yield the same `next_iteration`
and, for any fixed timestamp, the same generated backup name. -/
theorem nextVersionDependsOnlyOnNames (base : Str) (d1 d2 : List FileEntry)
    (h : (d1.filter (fun f => matchesPattern base f.name)).map (fun f => f.name)
       ~ (d2.filter (fun f => matchesPattern base f.name)).map (fun f => f.name)) :
    next_iteration base d1 = next_iteration base d2
    ∧ ∀ nowStr, get_next_backup_filename base nowStr d1
        = get_next_backup_filename base nowStr d2 := by
  have key : ∀ d : List FileEntry, matchingVersions base d
      = ((d.filter (fun f => matchesPattern base f.name)).map
          (fun f => f.name)).filterMap extractVersion := by
    intro d
    rw [List.filterMap_map]
    rfl
  have hiter : next_iteration base d1 = next_iteration base d2 := by
    rw [next_iteration_eq_matching, next_iteration_eq_matching, key, key,
      foldl_max_perm (h.filterMap extractVersion)]
  exact ⟨hiter, fun nowStr => by unfold get_next_backup_filename; rw [hiter]⟩

/-- C10 witness: two directories with the same two matching names in
opposite enumeration order, with different modification times and contents,
produce the same next version and the same generated name. -/
theorem nextVersionDependsOnlyOnNames_witness :
    ((([⟨"adaptcalc_20250101_100000_v1.bak".data, "a".data, 1⟩,
        ⟨"adaptcalc_20250101_110000_v3.bak".data, "b".data, 2⟩]
        : List FileEntry).filter
          (fun f => matchesPattern "adaptcalc".data f.name)).map (fun f => f.name)
      ~ (([⟨"adaptcalc_20250101_110000_v3.bak".data, "zzz".data, 9⟩,
           ⟨"adaptcalc_20250101_100000_v1.bak".data, "q".data, 7⟩]
          : List FileEntry).filter
            (fun f => matchesPattern "adaptcalc".data f.name)).map (fun f => f.name))
    ∧ next_iteration "adaptcalc".data
        [⟨"adaptcalc_20250101_100000_v1.bak".data, "a".data, 1⟩,
         ⟨"adaptcalc_20250101_110000_v3.bak".data, "b".data, 2⟩]
      = next_iteration "adaptcalc".data
        [⟨"adaptcalc_20250101_110000_v3.bak".data, "zzz".data, 9⟩,
         ⟨"adaptcalc_20250101_100000_v1.bak".data, "q".data, 7⟩] := by
  have hperm : ((([⟨"adaptcalc_20250101_100000_v1.bak".data, "a".data, 1⟩,
        ⟨"adaptcalc_20250101_110000_v3.bak".data, "b".data, 2⟩]
        : List FileEntry).filter
          (fun f => matchesPattern "adaptcalc".data f.name)).map (fun f => f.name)
      ~ (([⟨"adaptcalc_20250101_110000_v3.bak".data, "zzz".data, 9⟩,
           ⟨"adaptcalc_20250101_100000_v1.bak".data, "q".data, 7⟩]
          : List FileEntry).filter
            (fun f => matchesPattern "adaptcalc".data f.name)).map (fun f => f.name)) := by
    rw [show ((([⟨"adaptcalc_20250101_100000_v1.bak".data, "a".data, 1⟩,
        ⟨"adaptcalc_20250101_110000_v3.bak".data, "b".data, 2⟩]
        : List FileEntry).filter
          (fun f => matchesPattern "adaptcalc".data f.name)).map (fun f => f.name))
      = ["adaptcalc_20250101_100000_v1.bak".data,
         "adaptcalc_20250101_110000_v3.bak".data] from by decide]
    rw [show ((([⟨"adaptcalc_20250101_110000_v3.bak".data, "zzz".data, 9⟩,
           ⟨"adaptcalc_20250101_100000_v1.bak".data, "q".data, 7⟩]
          : List FileEntry).filter
            (fun f => matchesPattern "adaptcalc".data f.name)).map (fun f => f.name))
      = ["adaptcalc_20250101_110000_v3.bak".data,
         "adaptcalc_20250101_100000_v1.bak".data] from by decide]
    exact List.Perm.swap "adaptcalc_20250101_110000_v3.bak".data
      "adaptcalc_20250101_100000_v1.bak".data []
  exact ⟨hperm, (nextVersionDependsOnlyOnNames "adaptcalc".data _ _ hperm).1⟩

/-- When the copy in `backup_script_custom` succeeded, the post-backup state
is exactly the pre-state with the generated backup written, holding the
tracked file's content. -/
theorem backup_success_state (env : Env) (base nowStr scriptPath : Str) (s : Sys)
    (c : Str) (hread : readFile s.fs scriptPath = some c)
    (hok : (backup_script_custom env base nowStr scriptPath s).2.2 = true) :
    backup_script_custom env base nowStr scriptPath s
      = (⟨writeFile s.fs (get_next_backup_filename base nowStr s.fs) c s.clock,
          s.clock + 1⟩,
         get_next_backup_filename base nowStr s.fs, true) := by
  unfold backup_script_custom at hok ⊢
  rw [hread] at hok ⊢
  by_cases hw : env.writable (get_next_backup_filename base nowStr s.fs)
  · simp [hw]
  · simp [hw] at hok

/-- C4: a successful `backup_script_custom` leaves the generated backup file
holding exactly the tracked file's content at call time, and a subsequent
truncate-write of any new content to the tracked file leaves the backup
unchanged — the backup is a frozen copy (the tracked file does not end in
`.bak`, so the backup name can never collide with it). -/
theorem createBackupRoundTrip (env : Env) (base nowStr scriptPath : Str)
    (s : Sys) (c newContent : Str)
    (hread : readFile s.fs scriptPath = some c)
    (hnb : endsBak scriptPath = false)
    (hok : (backup_script_custom env base nowStr scriptPath s).2.2 = true) :
    readFile (backup_script_custom env base nowStr scriptPath s).1.fs
        (backup_script_custom env base nowStr scriptPath s).2.1 = some c
    ∧ readFile
        (writeFile (backup_script_custom env base nowStr scriptPath s).1.fs
          scriptPath newContent
          (backup_script_custom env base nowStr scriptPath s).1.clock)
        (backup_script_custom env base nowStr scriptPath s).2.1 = some c := by
  rw [backup_success_state env base nowStr scriptPath s c hread hok]
  have hne : get_next_backup_filename base nowStr s.fs ≠ scriptPath :=
    (ne_gen_of_not_endsBak base nowStr scriptPath s.fs hnb).symm
  constructor
  · exact readFile_writeFile_same s.fs _ c s.clock
  · rw [readFile_writeFile_other _ _ _ _ _ hne]
    exact readFile_writeFile_same s.fs _ c s.clock

/-- C4 witness: concrete run over a one-file directory; the backup then
holds "old" and still holds "old" after the tracked file is rewritten. -/
theorem createBackupRoundTrip_witness :
    readFile [⟨"adaptcalc.py".data, "old".data, 0⟩] "adaptcalc.py".data
      = some "old".data
    ∧ endsBak "adaptcalc.py".data = false
    ∧ (backup_script_custom ⟨fun _ => true, true⟩ "adaptcalc".data
        "20250306_153012".data "adaptcalc.py".data
        ⟨[⟨"adaptcalc.py".data, "old".data, 0⟩], 1⟩).2.2 = true
    ∧ (readFile (backup_script_custom ⟨fun _ => true, true⟩ "adaptcalc".data
          "20250306_153012".data "adaptcalc.py".data
          ⟨[⟨"adaptcalc.py".data, "old".data, 0⟩], 1⟩).1.fs
        (backup_script_custom ⟨fun _ => true, true⟩ "adaptcalc".data
          "20250306_153012".data "adaptcalc.py".data
          ⟨[⟨"adaptcalc.py".data, "old".data, 0⟩], 1⟩).2.1 = some "old".data
      ∧ readFile
          (writeFile (backup_script_custom ⟨fun _ => true, true⟩ "adaptcalc".data
            "20250306_153012".data "adaptcalc.py".data
            ⟨[⟨"adaptcalc.py".data, "old".data, 0⟩], 1⟩).1.fs
            "adaptcalc.py".data "new".data
            (backup_script_custom ⟨fun _ => true, true⟩ "adaptcalc".data
              "20250306_153012".data "adaptcalc.py".data
              ⟨[⟨"adaptcalc.py".data, "old".data, 0⟩], 1⟩).1.clock)
          (backup_script_custom ⟨fun _ => true, true⟩ "adaptcalc".data
            "20250306_153012".data "adaptcalc.py".data
            ⟨[⟨"adaptcalc.py".data, "old".data, 0⟩], 1⟩).2.1 = some "old".data) :=
  ⟨by decide, by decide, by decide,
   createBackupRoundTrip ⟨fun _ => true, true⟩ "adaptcalc".data
     "20250306_153012".data "adaptcalc.py".data
     ⟨[⟨"adaptcalc.py".data, "old".data, 0⟩], 1⟩ "old".data "new".data
     (by decide) (by decide) (by decide)⟩

/-- C2: for a replace (`overwrite_self`) or revert (`revert_to_backup`)
invocation whose BackingUp step (`backup_script_custom`) succeeded, the
generated backup file holds the tracked file's pre-mutation content in the
intermediate state — where the tracked file is still untouched — before any
byte of the tracked file is written, and it still holds that content in the
final state of either controller, whatever the overwrite and re-exec steps
do.  (`revert_tool.py`'s `revert_backup` performs no BackingUp step at all,
so no invocation of it satisfies the claim's hypothesis.) -/
theorem backupExistsBeforeMutation (env : Env) (base nowStr scriptPath : Str)
    (s : Sys) (c newCode chosen : Str)
    (hread : readFile s.fs scriptPath = some c)
    (hnb : endsBak scriptPath = false)
    (hok : (backup_script_custom env base nowStr scriptPath s).2.2 = true) :
    readFile (backup_script_custom env base nowStr scriptPath s).1.fs
        (backup_script_custom env base nowStr scriptPath s).2.1 = some c
    ∧ readFile (backup_script_custom env base nowStr scriptPath s).1.fs
        scriptPath = some c
    ∧ readFile (overwrite_self env base nowStr scriptPath newCode s).1.fs
        (backup_script_custom env base nowStr scriptPath s).2.1 = some c
    ∧ readFile (revert_to_backup env base nowStr scriptPath chosen s).1.fs
        (backup_script_custom env base nowStr scriptPath s).2.1 = some c := by
  have hb := backup_success_state env base nowStr scriptPath s c hread hok
  have hne : get_next_backup_filename base nowStr s.fs ≠ scriptPath :=
    (ne_gen_of_not_endsBak base nowStr scriptPath s.fs hnb).symm
  have hsame : readFile
      (writeFile s.fs (get_next_backup_filename base nowStr s.fs) c s.clock)
      (get_next_backup_filename base nowStr s.fs) = some c :=
    readFile_writeFile_same _ _ _ _
  refine ⟨?_, ?_, ?_, ?_⟩
  · rw [hb]
    exact hsame
  · rw [hb]
    show readFile
      (writeFile s.fs (get_next_backup_filename base nowStr s.fs) c s.clock)
      scriptPath = some c
    rw [readFile_writeFile_other _ _ _ _ _ hne.symm]
    exact hread
  · unfold overwrite_self
    rw [hb]
    simp only
    by_cases hw : env.writable scriptPath
    · rw [if_pos hw]
      cases env.execOk
      · simp only [Bool.false_eq_true, if_false]
        rw [readFile_writeFile_other _ _ _ _ _ hne]
        exact hsame
      · simp only [if_true]
        rw [readFile_writeFile_other _ _ _ _ _ hne]
        exact hsame
    · rw [if_neg hw]
      exact hsame
  · unfold revert_to_backup
    rw [hb]
    simp only
    cases hc : readFile
        (writeFile s.fs (get_next_backup_filename base nowStr s.fs) c s.clock)
        chosen
    · exact hsame
    · by_cases hw : env.writable scriptPath
      · simp only [hw, if_true]
        cases env.execOk
        · simp only [Bool.false_eq_true, if_false]
          rw [readFile_writeFile_other _ _ _ _ _ hne]
          exact hsame
        · simp only [if_true]
          rw [readFile_writeFile_other _ _ _ _ _ hne]
          exact hsame
      · have hw' : env.writable scriptPath = false := by
          revert hw
          cases env.writable scriptPath <;> simp
        simp only [hw', Bool.false_eq_true, if_false]
        exact hsame

/-- C2 witness: a concrete replace and revert over a one-file directory with
everything writable; the backup holds "old" at the intermediate state and in
both final states. -/
theorem backupExistsBeforeMutation_witness :
    readFile [⟨"adaptcalc.py".data, "old".data, 0⟩] "adaptcalc.py".data
      = some "old".data
    ∧ endsBak "adaptcalc.py".data = false
    ∧ (backup_script_custom ⟨fun _ => true, true⟩ "adaptcalc".data
        "20250306_153012".data "adaptcalc.py".data
        ⟨[⟨"adaptcalc.py".data, "old".data, 0⟩], 1⟩).2.2 = true
    ∧ (readFile (backup_script_custom ⟨fun _ => true, true⟩ "adaptcalc".data
          "20250306_153012".data "adaptcalc.py".data
          ⟨[⟨"adaptcalc.py".data, "old".data, 0⟩], 1⟩).1.fs
        (backup_script_custom ⟨fun _ => true, true⟩ "adaptcalc".data
          "20250306_153012".data "adaptcalc.py".data
          ⟨[⟨"adaptcalc.py".data, "old".data, 0⟩], 1⟩).2.1 = some "old".data
      ∧ readFile (backup_script_custom ⟨fun _ => true, true⟩ "adaptcalc".data
          "20250306_153012".data "adaptcalc.py".data
          ⟨[⟨"adaptcalc.py".data, "old".data, 0⟩], 1⟩).1.fs
          "adaptcalc.py".data = some "old".data
      ∧ readFile (overwrite_self ⟨fun _ => true, true⟩ "adaptcalc".data
          "20250306_153012".data "adaptcalc.py".data "new".data
          ⟨[⟨"adaptcalc.py".data, "old".data, 0⟩], 1⟩).1.fs
        (backup_script_custom ⟨fun _ => true, true⟩ "adaptcalc".data
          "20250306_153012".data "adaptcalc.py".data
          ⟨[⟨"adaptcalc.py".data, "old".data, 0⟩], 1⟩).2.1 = some "old".data
      ∧ readFile (revert_to_backup ⟨fun _ => true, true⟩ "adaptcalc".data
          "20250306_153012".data "adaptcalc.py".data
          "adaptcalc_20250101_100000_v9.bak".data
          ⟨[⟨"adaptcalc.py".data, "old".data, 0⟩], 1⟩).1.fs
        (backup_script_custom ⟨fun _ => true, true⟩ "adaptcalc".data
          "20250306_153012".data "adaptcalc.py".data
          ⟨[⟨"adaptcalc.py".data, "old".data, 0⟩], 1⟩).2.1 = some "old".data) :=
  ⟨by decide, by decide, by decide,
   backupExistsBeforeMutation ⟨fun _ => true, true⟩ "adaptcalc".data
     "20250306_153012".data "adaptcalc.py".data
     ⟨[⟨"adaptcalc.py".data, "old".data, 0⟩], 1⟩ "old".data "new".data
     "adaptcalc_20250101_100000_v9.bak".data (by decide) (by decide) (by decide)⟩

/-- C1 (code bug): with the backup destination not writable, the BackingUp
copy in `backup_script_custom` fails; the code catches the exception, prints
"Warning: Could not create backup" and returns, and `overwrite_self`
proceeds regardless: the tracked file is overwritten with the new content
and the process restarts with no I/O error reported.  The spec requires the
operation to fail with an I/O error and leave the tracked file untouched
("backups are a precondition gate, not a best-effort courtesy"). -/
theorem backupFailureDoesNotAbortOverwrite :
    (backup_script_custom ⟨fun n => n == "adaptcalc.py".data, true⟩
        "adaptcalc".data "20250306_153012".data "adaptcalc.py".data
        ⟨[⟨"adaptcalc.py".data, "old".data, 0⟩], 1⟩).2.2 = false
    ∧ readFile (overwrite_self ⟨fun n => n == "adaptcalc.py".data, true⟩
        "adaptcalc".data "20250306_153012".data "adaptcalc.py".data "new".data
        ⟨[⟨"adaptcalc.py".data, "old".data, 0⟩], 1⟩).1.fs
        "adaptcalc.py".data = some "new".data
    ∧ (overwrite_self ⟨fun n => n == "adaptcalc.py".data, true⟩
        "adaptcalc".data "20250306_153012".data "adaptcalc.py".data "new".data
        ⟨[⟨"adaptcalc.py".data, "old".data, 0⟩], 1⟩).2 = Outcome.restarted := by
  decide

/-- C3 counterexample: the chosen backup `...v9.bak` is absent from the
directory (so absent from `list_backup_files`); `revert_to_backup` leaves
the tracked file unchanged and reports an error, but it has already created
a brand-new backup file `adaptcalc_20250102_090000_v2.bak` (absent before
the call, present after, matching the backup naming grammar) — falsifying
"no new backup file is created". -/
theorem revertMissingBackupCreatesBackup_cex :
    readFile [⟨"adaptcalc.py".data, "old".data, 0⟩,
              ⟨"adaptcalc_20250101_100000_v1.bak".data, "one".data, 1⟩]
        "adaptcalc_20250101_100000_v9.bak".data = none
    ∧ readFile (revert_to_backup ⟨fun _ => true, true⟩ "adaptcalc".data
        "20250102_090000".data "adaptcalc.py".data
        "adaptcalc_20250101_100000_v9.bak".data
        ⟨[⟨"adaptcalc.py".data, "old".data, 0⟩,
          ⟨"adaptcalc_20250101_100000_v1.bak".data, "one".data, 1⟩], 2⟩).1.fs
        "adaptcalc.py".data = some "old".data
    ∧ (revert_to_backup ⟨fun _ => true, true⟩ "adaptcalc".data
        "20250102_090000".data "adaptcalc.py".data
        "adaptcalc_20250101_100000_v9.bak".data
        ⟨[⟨"adaptcalc.py".data, "old".data, 0⟩,
          ⟨"adaptcalc_20250101_100000_v1.bak".data, "one".data, 1⟩], 2⟩).2
      = Outcome.ioError
    ∧ readFile [⟨"adaptcalc.py".data, "old".data, 0⟩,
                ⟨"adaptcalc_20250101_100000_v1.bak".data, "one".data, 1⟩]
        "adaptcalc_20250102_090000_v2.bak".data = none
    ∧ readFile (revert_to_backup ⟨fun _ => true, true⟩ "adaptcalc".data
        "20250102_090000".data "adaptcalc.py".data
        "adaptcalc_20250101_100000_v9.bak".data
        ⟨[⟨"adaptcalc.py".data, "old".data, 0⟩,
          ⟨"adaptcalc_20250101_100000_v1.bak".data, "one".data, 1⟩], 2⟩).1.fs
        "adaptcalc_20250102_090000_v2.bak".data = some "old".data
    ∧ matchesPattern "adaptcalc".data
        "adaptcalc_20250102_090000_v2.bak".data = true := by
  decide

/-- When the copy in `backup_script_custom` failed although the source was
readable, the state is returned untouched. -/
theorem backup_fail_state (env : Env) (base nowStr scriptPath : Str) (s : Sys)
    (c : Str) (hread : readFile s.fs scriptPath = some c)
    (hok : (backup_script_custom env base nowStr scriptPath s).2.2 = false) :
    backup_script_custom env base nowStr scriptPath s
      = (s, get_next_backup_filename base nowStr s.fs, false) := by
  unfold backup_script_custom at hok ⊢
  rw [hread] at hok ⊢
  by_cases hw : env.writable (get_next_backup_filename base nowStr s.fs)
  · simp [hw] at hok
  · simp [hw]

/-- C3 (amended): a revert whose chosen backup name is absent from the
directory at call time (and is not the very name the BackingUp step
generates in this call) fails with an error — the `FileNotFoundError` from
opening the chosen backup is caught and reported — before any write to the
tracked file, whose content is unchanged; but the BackingUp step has
already run first, so whenever its copy succeeded a new backup file holding
the current tracked content now exists: the claim's "no new backup file is
created" does not hold of the code. -/
theorem revertMissingBackupAborts (env : Env) (base nowStr scriptPath chosen : Str)
    (s : Sys) (c : Str)
    (hread : readFile s.fs scriptPath = some c)
    (hnb : endsBak scriptPath = false)
    (habsent : readFile s.fs chosen = none)
    (hnc : chosen ≠ get_next_backup_filename base nowStr s.fs) :
    readFile (revert_to_backup env base nowStr scriptPath chosen s).1.fs
        scriptPath = some c
    ∧ (revert_to_backup env base nowStr scriptPath chosen s).2 = Outcome.ioError
    ∧ ((backup_script_custom env base nowStr scriptPath s).2.2 = true →
        readFile (revert_to_backup env base nowStr scriptPath chosen s).1.fs
          (get_next_backup_filename base nowStr s.fs) = some c) := by
  have hne : get_next_backup_filename base nowStr s.fs ≠ scriptPath :=
    (ne_gen_of_not_endsBak base nowStr scriptPath s.fs hnb).symm
  cases hok : (backup_script_custom env base nowStr scriptPath s).2.2
  · have hb := backup_fail_state env base nowStr scriptPath s c hread hok
    unfold revert_to_backup
    rw [hb]
    simp only
    rw [habsent]
    exact ⟨hread, rfl, fun h => absurd h (by simp [hok])⟩
  · have hb := backup_success_state env base nowStr scriptPath s c hread hok
    unfold revert_to_backup
    rw [hb]
    simp only
    rw [readFile_writeFile_other _ _ _ _ _ hnc, habsent]
    refine ⟨?_, rfl, fun _ => readFile_writeFile_same _ _ _ _⟩
    rw [readFile_writeFile_other _ _ _ _ _ hne.symm]
    exact hread

/-- C3 amended witness: the counterexample scenario, through the amended
theorem: tracked file unchanged, error reported, new backup created. -/
theorem revertMissingBackupAborts_witness :
    readFile [⟨"adaptcalc.py".data, "old".data, 0⟩,
              ⟨"adaptcalc_20250101_100000_v1.bak".data, "one".data, 1⟩]
        "adaptcalc.py".data = some "old".data
    ∧ endsBak "adaptcalc.py".data = false
    ∧ readFile [⟨"adaptcalc.py".data, "old".data, 0⟩,
                ⟨"adaptcalc_20250101_100000_v1.bak".data, "one".data, 1⟩]
        "adaptcalc_20250101_100000_v9.bak".data = none
    ∧ "adaptcalc_20250101_100000_v9.bak".data
        ≠ get_next_backup_filename "adaptcalc".data "20250102_090000".data
            [⟨"adaptcalc.py".data, "old".data, 0⟩,
             ⟨"adaptcalc_20250101_100000_v1.bak".data, "one".data, 1⟩]
    ∧ (readFile (revert_to_backup ⟨fun _ => true, true⟩ "adaptcalc".data
          "20250102_090000".data "adaptcalc.py".data
          "adaptcalc_20250101_100000_v9.bak".data
          ⟨[⟨"adaptcalc.py".data, "old".data, 0⟩,
            ⟨"adaptcalc_20250101_100000_v1.bak".data, "one".data, 1⟩], 2⟩).1.fs
          "adaptcalc.py".data = some "old".data
      ∧ (revert_to_backup ⟨fun _ => true, true⟩ "adaptcalc".data
          "20250102_090000".data "adaptcalc.py".data
          "adaptcalc_20250101_100000_v9.bak".data
          ⟨[⟨"adaptcalc.py".data, "old".data, 0⟩,
            ⟨"adaptcalc_20250101_100000_v1.bak".data, "one".data, 1⟩], 2⟩).2
        = Outcome.ioError
      ∧ ((backup_script_custom ⟨fun _ => true, true⟩ "adaptcalc".data
            "20250102_090000".data "adaptcalc.py".data
            ⟨[⟨"adaptcalc.py".data, "old".data, 0⟩,
              ⟨"adaptcalc_20250101_100000_v1.bak".data, "one".data, 1⟩], 2⟩).2.2
            = true →
          readFile (revert_to_backup ⟨fun _ => true, true⟩ "adaptcalc".data
            "20250102_090000".data "adaptcalc.py".data
            "adaptcalc_20250101_100000_v9.bak".data
            ⟨[⟨"adaptcalc.py".data, "old".data, 0⟩,
              ⟨"adaptcalc_20250101_100000_v1.bak".data, "one".data, 1⟩], 2⟩).1.fs
            (get_next_backup_filename "adaptcalc".data "20250102_090000".data
              [⟨"adaptcalc.py".data, "old".data, 0⟩,
               ⟨"adaptcalc_20250101_100000_v1.bak".data, "one".data, 1⟩])
            = some "old".data)) :=
  ⟨by decide, by decide, by decide, by decide,
   revertMissingBackupAborts ⟨fun _ => true, true⟩ "adaptcalc".data
     "20250102_090000".data "adaptcalc.py".data
     "adaptcalc_20250101_100000_v9.bak".data
     ⟨[⟨"adaptcalc.py".data, "old".data, 0⟩,
       ⟨"adaptcalc_20250101_100000_v1.bak".data, "one".data, 1⟩], 2⟩
     "old".data (by decide) (by decide) (by decide) (by decide)⟩

/-- A sequence of `backup_script_custom` calls against the same tracked
file, one per supplied timestamp, threading the state; returns the final
state and, per call, the backup name used and whether the copy succeeded. -/
def run_backups (env : Env) (base scriptPath : Str) :
    List Str → Sys → Sys × List (Str × Bool)
  | [], s => (s, [])
  | now :: rest, s =>
    let r := backup_script_custom env base now scriptPath s
    let rr := run_backups env base scriptPath rest r.1
    (rr.1, (r.2.1, r.2.2) :: rr.2)

/-- Invariant for C6: starting from a state whose matching versions are
exactly `1..k`, a run over well-formed timestamps succeeds throughout and
produces versions `k+1, k+2, ...` in order. -/
theorem run_backups_spec (env : Env) (base scriptPath : Str)
    (hw : ∀ n, env.writable n = true) :
    ∀ (nows : List (Str × Str)) (s : Sys) (k : Nat) (c : Str),
    (∀ p ∈ nows, p.1.length = 8 ∧ isDigits p.1 = true
        ∧ p.2.length = 6 ∧ isDigits p.2 = true) →
    matchingVersions base s.fs = List.range' 1 k →
    readFile s.fs scriptPath = some c →
    (run_backups env base scriptPath
        (nows.map (fun p => p.1 ++ '_' :: p.2)) s).2.map
        (fun x => extractVersion x.1) = (List.range' (k + 1) nows.length).map some
    ∧ ∀ x ∈ (run_backups env base scriptPath
        (nows.map (fun p => p.1 ++ '_' :: p.2)) s).2, x.2 = true := by
  intro nows
  induction nows with
  | nil =>
    intro s k c _ _ _
    exact ⟨rfl, by simp [run_backups]⟩
  | cons p rest ih =>
    intro s k c hwf hv hread
    obtain ⟨hd8, hdd, ht6, htd⟩ := hwf p (List.mem_cons_self p rest)
    have hiter : next_iteration base s.fs = k + 1 := by
      rw [next_iteration_eq_matching, hv, foldl_max_range']
    have hmg : matchesPattern base
        (get_next_backup_filename base (p.1 ++ '_' :: p.2) s.fs) = true :=
      matchesPattern_gen base p.1 p.2 s.fs hd8 hdd ht6 htd
    have hev : extractVersion
        (get_next_backup_filename base (p.1 ++ '_' :: p.2) s.fs) = some (k + 1) := by
      rw [extractVersion_gen, hiter]
    have habs : readFile s.fs
        (get_next_backup_filename base (p.1 ++ '_' :: p.2) s.fs) = none := by
      rw [readFile_eq_none_iff]
      intro e he heq
      have hm : matchesPattern base e.name = true := by rw [heq]; exact hmg
      have hmem : (k + 1) ∈ matchingVersions base s.fs :=
        List.mem_filterMap.mpr
          ⟨e, List.mem_filter.mpr ⟨he, hm⟩, by rw [heq]; exact hev⟩
      rw [hv] at hmem
      rcases List.mem_range'.mp hmem with ⟨i, hik, hieq⟩
      omega
    have hstep : backup_script_custom env base (p.1 ++ '_' :: p.2) scriptPath s
        = (⟨s.fs ++ [⟨get_next_backup_filename base (p.1 ++ '_' :: p.2) s.fs,
              c, s.clock⟩], s.clock + 1⟩,
           get_next_backup_filename base (p.1 ++ '_' :: p.2) s.fs, true) := by
      unfold backup_script_custom
      rw [hread]
      simp only
      rw [if_pos (hw _), writeFile_of_absent _ _ _ _ habs]
    have hv' : matchingVersions base
        (s.fs ++ [⟨get_next_backup_filename base (p.1 ++ '_' :: p.2) s.fs,
          c, s.clock⟩]) = List.range' 1 (k + 1) := by
      have hx : matchingVersions base
          (s.fs ++ [⟨get_next_backup_filename base (p.1 ++ '_' :: p.2) s.fs,
            c, s.clock⟩])
          = matchingVersions base s.fs ++ [k + 1] := by
        unfold matchingVersions
        rw [List.filter_append, List.filterMap_append]
        have h1 : List.filter (fun f => matchesPattern base f.name)
            [(⟨get_next_backup_filename base (p.1 ++ '_' :: p.2) s.fs,
              c, s.clock⟩ : FileEntry)]
            = [⟨get_next_backup_filename base (p.1 ++ '_' :: p.2) s.fs,
                c, s.clock⟩] := by
          simp [List.filter_cons, hmg]
        rw [h1]
        have h2 : List.filterMap (fun f => extractVersion f.name)
            [(⟨get_next_backup_filename base (p.1 ++ '_' :: p.2) s.fs,
              c, s.clock⟩ : FileEntry)] = [k + 1] := by
          simp [List.filterMap_cons, hev]
        rw [h2]
      rw [hx, hv, List.range'_concat]
      have h1k : 1 + 1 * k = k + 1 := by omega
      rw [h1k]
    have hread' : readFile
        (s.fs ++ [⟨get_next_backup_filename base (p.1 ++ '_' :: p.2) s.fs,
          c, s.clock⟩]) scriptPath = some c :=
      readFile_append_of_found _ _ _ _ hread
    have hwf' : ∀ q ∈ rest, q.1.length = 8 ∧ isDigits q.1 = true
        ∧ q.2.length = 6 ∧ isDigits q.2 = true :=
      fun q hq => hwf q (List.mem_cons_of_mem p hq)
    obtain ⟨ihA, ihB⟩ := ih ⟨s.fs ++
      [⟨get_next_backup_filename base (p.1 ++ '_' :: p.2) s.fs, c, s.clock⟩],
      s.clock + 1⟩ (k + 1) c hwf' hv' hread'
    simp only [List.map_cons]
    unfold run_backups
    rw [hstep]
    simp only [List.map_cons, List.mem_cons]
    constructor
    · rw [hev, ihA, List.length_cons, List.range'_succ, List.map_cons]
    · intro x hx
      rcases hx with rfl | hx
      · rfl
      · exact ihB x hx

/-- C6: starting from a directory in which no entry is accepted by the
code's backup-name regex, every sequence of N `backup_script_custom` calls
with well-formed timestamps (everything writable, tracked file readable)
succeeds, and the versions embedded in the names used are exactly 1..N,
strictly increasing in creation order, regardless of the timestamps. -/
theorem backupVersionsAreOneToN (env : Env) (base scriptPath : Str) (s : Sys)
    (nows : List (Str × Str)) (c : Str)
    (hw : ∀ n, env.writable n = true)
    (hwf : ∀ p ∈ nows, p.1.length = 8 ∧ isDigits p.1 = true
        ∧ p.2.length = 6 ∧ isDigits p.2 = true)
    (hempty : s.fs.filter (fun f => matchesPattern base f.name) = [])
    (hread : readFile s.fs scriptPath = some c) :
    (run_backups env base scriptPath
        (nows.map (fun p => p.1 ++ '_' :: p.2)) s).2.map
        (fun x => extractVersion x.1) = (List.range' 1 nows.length).map some
    ∧ ∀ x ∈ (run_backups env base scriptPath
        (nows.map (fun p => p.1 ++ '_' :: p.2)) s).2, x.2 = true := by
  have hv : matchingVersions base s.fs = List.range' 1 0 := by
    unfold matchingVersions
    rw [hempty]
    rfl
  exact run_backups_spec env base scriptPath hw nows s 0 c hwf hv hread

/-- C6 witness: two successive backups from an initially backup-free
directory get versions 1 and 2, both succeeding. -/
theorem backupVersionsAreOneToN_witness :
    (∀ n, (⟨fun _ => true, true⟩ : Env).writable n = true)
    ∧ (∀ p ∈ [("20250101".data, "100000".data), ("20250102".data, "110000".data)],
        (p : Str × Str).1.length = 8 ∧ isDigits p.1 = true
          ∧ p.2.length = 6 ∧ isDigits p.2 = true)
    ∧ ([⟨"adaptcalc.py".data, "old".data, 0⟩] : List FileEntry).filter
        (fun f => matchesPattern "adaptcalc".data f.name) = []
    ∧ readFile [⟨"adaptcalc.py".data, "old".data, 0⟩] "adaptcalc.py".data
        = some "old".data
    ∧ ((run_backups ⟨fun _ => true, true⟩ "adaptcalc".data "adaptcalc.py".data
        ([("20250101".data, "100000".data),
          ("20250102".data, "110000".data)].map (fun p => p.1 ++ '_' :: p.2))
        ⟨[⟨"adaptcalc.py".data, "old".data, 0⟩], 1⟩).2.map
        (fun x => extractVersion x.1)
        = (List.range' 1 [("20250101".data, "100000".data),
            ("20250102".data, "110000".data)].length).map some
      ∧ ∀ x ∈ (run_backups ⟨fun _ => true, true⟩ "adaptcalc".data
          "adaptcalc.py".data
          ([("20250101".data, "100000".data),
            ("20250102".data, "110000".data)].map (fun p => p.1 ++ '_' :: p.2))
          ⟨[⟨"adaptcalc.py".data, "old".data, 0⟩], 1⟩).2, x.2 = true) :=
  ⟨fun _ => rfl, by decide, by decide, by decide,
   backupVersionsAreOneToN ⟨fun _ => true, true⟩ "adaptcalc".data
     "adaptcalc.py".data ⟨[⟨"adaptcalc.py".data, "old".data, 0⟩], 1⟩
     [("20250101".data, "100000".data), ("20250102".data, "110000".data)]
     "old".data (fun _ => rfl) (by decide) (by decide) (by decide)⟩
